import Mathlib

/-!
Verification of the build-completion polling routine `wait` from
`python/copr/v3/helpers.py`.

The embedding is a shallow, executable model of the Python function:

* a build munch is a record with an `id`, a `state` string, and an optional
  bound proxy (the `__proxy__` attribute set by `bind_proxy`);
* the remote service is a pure fetch capability
  `get : P → Nat → Nat → Build P` taking the proxy used, the poll round and
  the build id, and returning the refreshed munch (`proxy.get(build_id)`);
* the `munches` dict is an association list with Python dict semantics
  (assignment to an existing key keeps its position, a new key is appended);
* real time is abstracted by a start time `t0` and a clock
  `clock : Nat → Nat` giving the value of `time.time()` at the timeout check
  of each round; `terminate = t0 + timeout`;
* the `while True` loop is run on fuel: each unit of fuel is one poll round,
  and exhausting the fuel yields the distinguished outcome `running`;
* everything observable (status fetches, callback invocations, sleeps) is
  recorded in an event trace so ordering claims can be stated.
-/

namespace Copr

/-- A build munch as handled by `wait`: its `id`, its `state` string and the
optional `__proxy__` attribute pointing back at the originating client. -/
structure Build (P : Type) where
  id : Nat
  state : String
  proxy : Option P
deriving DecidableEq, Repr

/-- The terminal states listed in `helpers.py`:
`["succeeded", "skipped", "failed", "canceled"]`. -/
def terminalStates : List String :=
  ["succeeded", "skipped", "failed", "canceled"]

/-- `build.state in ["succeeded", "skipped", "failed", "canceled"]`. -/
def isTerminal (s : String) : Bool :=
  terminalStates.contains s

/-- Python-level errors that can escape `wait`: `CoprException` with its
message, an `AttributeError` (missing `__proxy__` on the waitable), and a
`KeyError` (missing `munches` entry). -/
inductive PyError where
  | coprException (msg : String)
  | attributeError
  | keyError
deriving DecidableEq, Repr

/-- The Python exception class of an error, as a caller catching by type
would see it. -/
def errClass : PyError → String
  | .coprException _ => "CoprException"
  | .attributeError => "AttributeError"
  | .keyError => "KeyError"

/-- Observable events of one `wait` call: a status fetch
(`proxy.get(build_id)` with the proxy used, the round and the id), a
callback invocation with its argument list, and an inter-round
`time.sleep(interval)`. -/
inductive Event (P : Type) where
  | fetch (p : P) (round : Nat) (id : Nat)
  | callbackCall (snaps : List (Build P))
  | sleepCall (interval : Nat)
deriving DecidableEq, Repr

/-- Outcome of a `wait` call: normal return with the result list and the
final `failed` list, a raised error, or still running when the fuel is
exhausted. -/
inductive WaitResult (P : Type) where
  | finished (res : List (Build P)) (failed : List Nat)
  | error (e : PyError)
  | running
deriving DecidableEq, Repr

/-- Dict lookup `munches[build_id]`. -/
def lookupA {P : Type} : List (Nat × Build P) → Nat → Option (Build P)
  | [], _ => none
  | (k, v) :: rest, i => if k = i then some v else lookupA rest i

/-- Dict assignment `munches[build_id] = build`: an existing key keeps its
position and gets the new value, a fresh key is appended. -/
def updateA {P : Type} : List (Nat × Build P) → Nat → Build P → List (Nat × Build P)
  | [], i, b => [(i, b)]
  | (k, v) :: rest, i, b =>
      if k = i then (k, b) :: rest else (k, v) :: updateA rest i b

/-- `list(munches.values())`. -/
def dictValues {P : Type} (m : List (Nat × Build P)) : List (Build P) :=
  m.map (·.2)

/-- The proxy used to refresh a build: its own `__proxy__` attribute when
present (`hasattr(munches[build_id], "__proxy__")`), otherwise the
`__proxy__` of the original waitable argument (`none` models a bare list or
a munch without the attribute, where the access raises `AttributeError`). -/
def resolveProxy {P : Type} (b : Build P) (wp : Option P) : Option P :=
  match b.proxy with
  | some p => some p
  | none => wp

/-- One poll round: the body of `for build_id in watched.copy()`.
Returns the events of the round and either the raised error or the new
`watched` list, `munches` dict and `failed` list. -/
def processRound {P : Type} (get : P → Nat → Nat → Build P) (wp : Option P)
    (round : Nat) :
    List Nat → List (Nat × Build P) → List Nat →
    List (Event P) × Except PyError (List Nat × List (Nat × Build P) × List Nat)
  | [], munches, failed => ([], .ok ([], munches, failed))
  | bid :: rest, munches, failed =>
    match lookupA munches bid with
    | none => ([], .error .keyError)
    | some m =>
      match resolveProxy m wp with
      | none => ([], .error .attributeError)
      | some p =>
        let b := get p round bid
        let munches1 := updateA munches bid b
        let failed1 := if b.state = "failed" then failed ++ [bid] else failed
        if b.state = "unknown" then
          ([Event.fetch p round bid], .error (.coprException "Unknown status."))
        else
          let r := processRound get wp round rest munches1 failed1
          (Event.fetch p round bid :: r.1,
            match r.2 with
            | .error e => .error e
            | .ok (w, ms, fs) =>
                .ok ((if isTerminal b.state then w else bid :: w), ms, fs))

/-- The `while True` loop of `wait`, run on fuel (one unit per poll round).
After the round: invoke the callback when supplied, return when nothing is
watched, raise `CoprException "Timeouted"` when a nonzero timeout has
expired, otherwise sleep and repeat. -/
def waitAux {P : Type} (get : P → Nat → Nat → Build P) (wp : Option P)
    (cb : Bool) (interval timeout t0 : Nat) (clock : Nat → Nat) :
    Nat → Nat → List Nat → List (Nat × Build P) → List Nat →
    List (Event P) × WaitResult P
  | 0, _, _, _, _ => ([], .running)
  | fuel + 1, round, watched, munches, failed =>
    let pr := processRound get wp round watched munches failed
    match pr.2 with
    | .error e => (pr.1, .error e)
    | .ok (watched1, munches1, failed1) =>
      let evs := pr.1 ++ (if cb then [Event.callbackCall (dictValues munches1)] else [])
      if watched1.isEmpty then
        (evs, .finished (dictValues munches1) failed1)
      else if timeout ≠ 0 ∧ t0 + timeout ≤ clock round then
        (evs, .error (.coprException "Timeouted"))
      else
        let rest := waitAux get wp cb interval timeout t0 clock fuel (round + 1)
          watched1 munches1 failed1
        (evs ++ Event.sleepCall interval :: rest.1, rest.2)

/-- The `waitable` argument: either one munch or a list of munches; a list
may carry a `__proxy__` of its own (the library `List` class) or not (a bare
Python list). -/
inductive Waitable (P : Type) where
  | single (b : Build P)
  | listOf (bs : List (Build P)) (proxy : Option P)
deriving DecidableEq, Repr

/-- `builds = waitable if isinstance(waitable, list) else [waitable]`. -/
def buildsOf {P : Type} : Waitable P → List (Build P)
  | .single b => [b]
  | .listOf bs _ => bs

/-- The `__proxy__` of the original waitable argument, consulted as the
fallback fetch path. -/
def waitableProxy {P : Type} : Waitable P → Option P
  | .single b => b.proxy
  | .listOf _ p => p

/-- `munches = dict((build.id, build) for build in builds)`. -/
def initMunches {P : Type} (builds : List (Build P)) : List (Nat × Build P) :=
  builds.foldl (fun m b => updateA m b.id b) []

/-- The `wait` function of `helpers.py`: set up the session state and run
the polling loop. -/
def wait {P : Type} (get : P → Nat → Nat → Build P) (waitable : Waitable P)
    (cb : Bool) (interval timeout t0 : Nat) (clock : Nat → Nat) (fuel : Nat) :
    List (Event P) × WaitResult P :=
  let munches := initMunches (buildsOf waitable)
  let watched := munches.map (·.1)
  waitAux get (waitableProxy waitable) cb interval timeout t0 clock fuel 0
    watched munches []

/-- The build ids of the fetch events in a trace, in order. -/
def fetchedIds {P : Type} (evs : List (Event P)) : List Nat :=
  evs.filterMap fun e =>
    match e with
    | .fetch _ _ i => some i
    | _ => none


/-- Round discipline of a trace, as a checker: a trace consists of poll
rounds, each some fetches followed by exactly one callback invocation whose
argument list has length `n`, rounds separated by single sleeps, ending with
the final round's callback (no trailing sleep). -/
def traceShape {P : Type} (n : Nat) : List (Event P) → Bool
  | [] => false
  | Event.fetch _ _ _ :: rest => traceShape n rest
  | [Event.callbackCall snaps] => decide (snaps.length = n)
  | Event.callbackCall snaps :: Event.sleepCall _ :: rest2 =>
      decide (snaps.length = n) && traceShape n rest2
  | _ => false

/-! ### Dictionary lemmas -/

theorem lookupA_updateA {P : Type} (m : List (Nat × Build P)) (k i : Nat) (b : Build P) :
    lookupA (updateA m k b) i = if i = k then some b else lookupA m i := by
  induction m with
  | nil =>
    rcases eq_or_ne i k with h | h
    · subst h; simp [lookupA, updateA]
    · simp [lookupA, updateA, h, Ne.symm h]
  | cons hd tl ih =>
    obtain ⟨k0, v0⟩ := hd
    rcases eq_or_ne k0 k with h1 | h1
    · subst h1
      rcases eq_or_ne i k0 with h2 | h2
      · subst h2; simp [lookupA, updateA]
      · simp [lookupA, updateA, h2, Ne.symm h2]
    · rcases eq_or_ne k0 i with h2 | h2
      · subst h2
        simp [lookupA, updateA, h1, Ne.symm h1]
      · simp [lookupA, updateA, h1, h2, ih]

theorem lookupA_isSome {P : Type} (m : List (Nat × Build P)) (i : Nat) :
    (lookupA m i).isSome ↔ i ∈ m.map Prod.fst := by
  induction m with
  | nil => simp [lookupA]
  | cons hd tl ih =>
    obtain ⟨k0, v0⟩ := hd
    rcases eq_or_ne k0 i with h | h
    · subst h; simp [lookupA]
    · simp only [lookupA, if_neg h, List.map_cons, List.mem_cons]
      rw [ih]
      constructor
      · exact fun h2 => Or.inr h2
      · rintro (h2 | h2)
        · exact absurd h2.symm h
        · exact h2

theorem lookupA_mem {P : Type} (m : List (Nat × Build P)) (i : Nat) (b : Build P) :
    lookupA m i = some b → (i, b) ∈ m := by
  induction m with
  | nil => intro h; simp [lookupA] at h
  | cons hd tl ih =>
    obtain ⟨k0, v0⟩ := hd
    intro h
    rcases eq_or_ne k0 i with hk | hk
    · subst hk
      simp only [lookupA, eq_self_iff_true, if_true, Option.some.injEq] at h
      subst h
      exact List.mem_cons_self _ _
    · simp only [lookupA, if_neg hk] at h
      exact List.mem_cons_of_mem _ (ih h)

theorem updateA_keys_mem {P : Type} (m : List (Nat × Build P)) (k : Nat) (b : Build P) :
    k ∈ m.map Prod.fst → (updateA m k b).map Prod.fst = m.map Prod.fst := by
  induction m with
  | nil => intro h; simp at h
  | cons hd tl ih =>
    obtain ⟨k0, v0⟩ := hd
    intro h
    rcases eq_or_ne k0 k with h1 | h1
    · subst h1; simp [updateA]
    · simp only [List.map_cons, List.mem_cons] at h
      have h2 : k ∈ tl.map Prod.fst := by
        rcases h with h3 | h3
        · exact absurd h3.symm h1
        · exact h3
      simp [updateA, h1, ih h2]

theorem updateA_keys_not_mem {P : Type} (m : List (Nat × Build P)) (k : Nat) (b : Build P) :
    k ∉ m.map Prod.fst → (updateA m k b).map Prod.fst = m.map Prod.fst ++ [k] := by
  induction m with
  | nil => intro _; simp [updateA]
  | cons hd tl ih =>
    obtain ⟨k0, v0⟩ := hd
    intro h
    simp only [List.map_cons, List.mem_cons, not_or] at h
    have h1 : k0 ≠ k := fun hh => h.1 hh.symm
    simp [updateA, h1, ih h.2]

theorem updateA_mem {P : Type} (m : List (Nat × Build P)) (k j : Nat) (b c : Build P) :
    (j, c) ∈ updateA m k b → (j, c) ∈ m ∨ (j = k ∧ c = b) := by
  induction m with
  | nil =>
    intro h
    simp [updateA] at h
    exact Or.inr h
  | cons hd tl ih =>
    obtain ⟨k0, v0⟩ := hd
    intro h
    rcases eq_or_ne k0 k with h1 | h1
    · subst h1
      simp only [updateA, eq_self_iff_true, if_true] at h
      rcases List.mem_cons.mp h with h2 | h2
      · exact Or.inr ⟨congrArg Prod.fst h2, congrArg Prod.snd h2⟩
      · exact Or.inl (List.mem_cons_of_mem _ h2)
    · simp only [updateA, if_neg h1] at h
      rcases List.mem_cons.mp h with h2 | h2
      · exact Or.inl (h2 ▸ List.mem_cons_self _ _)
      · rcases ih h2 with h3 | h3
        · exact Or.inl (List.mem_cons_of_mem _ h3)
        · exact Or.inr h3

/-! ### Round lemmas -/

theorem processRound_error_cases {P : Type} (get : P → Nat → Nat → Build P) (wp : Option P)
    (round : Nat) (watched : List Nat) (munches : List (Nat × Build P)) (failed : List Nat)
    (e : PyError) :
    (processRound get wp round watched munches failed).2 = .error e →
    e = .keyError ∨ e = .attributeError ∨ e = .coprException "Unknown status." := by
  induction watched generalizing munches failed with
  | nil => intro h; simp [processRound] at h
  | cons bid rest ih =>
    intro h
    cases hl : lookupA munches bid with
    | none =>
      simp only [processRound, hl] at h
      simp at h
      simp [h]
    | some mm =>
      cases hp : resolveProxy mm wp with
      | none =>
        simp only [processRound, hl, hp] at h
        simp at h
        simp [h]
      | some p =>
        by_cases hu : (get p round bid).state = "unknown"
        · simp only [processRound, hl, hp, if_pos hu] at h
          simp at h
          simp [h]
        · simp only [processRound, hl, hp, if_neg hu] at h
          cases hr : (processRound get wp round rest
              (updateA munches bid (get p round bid))
              (if (get p round bid).state = "failed" then failed ++ [bid] else failed)).2 with
          | error e2 =>
            rw [hr] at h
            simp at h
            subst h
            exact ih _ _ hr
          | ok t =>
            rw [hr] at h
            obtain ⟨w, ms, fs⟩ := t
            simp at h

theorem processRound_ok_spec {P : Type} (get : P → Nat → Nat → Build P) (wp : Option P)
    (round : Nat) (watched : List Nat) (munches : List (Nat × Build P)) (failed : List Nat)
    (w' : List Nat) (m' : List (Nat × Build P)) (f' : List Nat) :
    watched.Nodup →
    (processRound get wp round watched munches failed).2 = .ok (w', m', f') →
    w'.Sublist watched ∧
    m'.map Prod.fst = munches.map Prod.fst ∧
    (∀ i, i ∉ watched → lookupA m' i = lookupA munches i) ∧
    (∀ i, i ∉ watched → (i ∈ f' ↔ i ∈ failed)) ∧
    fetchedIds (processRound get wp round watched munches failed).1 = watched ∧
    (∀ e ∈ (processRound get wp round watched munches failed).1,
      ∃ p i, e = Event.fetch p round i ∧ i ∈ watched) ∧
    (∀ i, i ∈ watched →
      ∃ b0 p, lookupA munches i = some b0 ∧ resolveProxy b0 wp = some p ∧
        lookupA m' i = some (get p round i) ∧
        (i ∈ w' ↔ isTerminal (get p round i).state = false) ∧
        Event.fetch p round i ∈ (processRound get wp round watched munches failed).1 ∧
        (i ∈ f' ↔ (i ∈ failed ∨ (get p round i).state = "failed"))) := by
  induction watched generalizing munches failed w' m' f' with
  | nil =>
    intro _ h
    simp [processRound] at h
    obtain ⟨hw, hm, hf⟩ := h
    subst hw; subst hm; subst hf
    refine ⟨List.Sublist.refl _, rfl, fun i _ => rfl, fun i _ => Iff.rfl, ?_, ?_, ?_⟩
    · simp [processRound, fetchedIds]
    · intro e he; simp [processRound] at he
    · intro i hi; simp at hi
  | cons bid rest ih =>
    intro hnd h
    obtain ⟨hbid, hnd'⟩ := List.nodup_cons.mp hnd
    cases hl : lookupA munches bid with
    | none => simp only [processRound, hl] at h; simp at h
    | some mm =>
      cases hp : resolveProxy mm wp with
      | none => simp only [processRound, hl, hp] at h; simp at h
      | some p =>
        by_cases hu : (get p round bid).state = "unknown"
        · simp only [processRound, hl, hp, if_pos hu] at h; simp at h
        · cases hr : (processRound get wp round rest
              (updateA munches bid (get p round bid))
              (if (get p round bid).state = "failed" then failed ++ [bid] else failed)).2 with
          | error e2 =>
            simp only [processRound, hl, hp, if_neg hu, hr] at h
            simp at h
          | ok t =>
            obtain ⟨w, ms, fs⟩ := t
            simp only [processRound, hl, hp, if_neg hu, hr] at h ⊢
            simp only [Except.ok.injEq, Prod.mk.injEq] at h
            obtain ⟨hw, hm, hf⟩ := h
            subst hm; subst hf
            obtain ⟨ihA, ihB, ihC, ihH, ihF, ihE, ihD⟩ := ih _ _ _ _ _ hnd' hr
            have hbmem : bid ∈ munches.map Prod.fst :=
              (lookupA_isSome munches bid).mp (by simp [hl])
            have hkeys : (updateA munches bid (get p round bid)).map Prod.fst
                = munches.map Prod.fst := updateA_keys_mem _ _ _ hbmem
            subst hw
            constructor
            · cases ht : isTerminal (get p round bid).state
              · simpa [ht] using ihA.cons₂ bid
              · simpa [ht] using ihA.cons bid
            refine ⟨ihB.trans hkeys, ?_, ?_, ?_, ?_, ?_⟩
            · intro i hi
              have hib : i ≠ bid := fun hh => hi (hh ▸ List.mem_cons_self _ _)
              have hir : i ∉ rest := fun hh => hi (List.mem_cons_of_mem _ hh)
              rw [ihC i hir, lookupA_updateA, if_neg hib]
            · intro i hi
              have hib : i ≠ bid := fun hh => hi (hh ▸ List.mem_cons_self _ _)
              have hir : i ∉ rest := fun hh => hi (List.mem_cons_of_mem _ hh)
              rw [ihH i hir]
              by_cases hfail : (get p round bid).state = "failed"
              · simp [hfail, hib]
              · simp [hfail]
            · simp only [fetchedIds, List.filterMap_cons] at ihF ⊢
              simpa using ihF
            · intro e he
              rcases List.mem_cons.mp he with he1 | he1
              · exact ⟨p, bid, he1, List.mem_cons_self _ _⟩
              · obtain ⟨q, i, hei, hii⟩ := ihE e he1
                exact ⟨q, i, hei, List.mem_cons_of_mem _ hii⟩
            · intro i hi
              rcases List.mem_cons.mp hi with hi1 | hi1
              · subst hi1
                refine ⟨mm, p, hl, hp, ?_, ?_, List.mem_cons_self _ _, ?_⟩
                · rw [ihC i hbid, lookupA_updateA, if_pos rfl]
                · have hbw : i ∉ w := fun hh => hbid (ihA.subset hh)
                  cases ht : isTerminal (get p round i).state
                  · simp [ht, hbw]
                  · simp [ht, hbw]
                · rw [ihH i hbid]
                  by_cases hfail : (get p round i).state = "failed"
                  · simp [hfail]
                  · simp [hfail]
              · have hib : i ≠ bid := fun hh => hbid (hh ▸ hi1)
                obtain ⟨b0, q, hd1, hd2, hd3, hd4, hd5, hd6⟩ := ihD i hi1
                rw [lookupA_updateA, if_neg hib] at hd1
                refine ⟨b0, q, hd1, hd2, hd3, ?_, List.mem_cons_of_mem _ hd5, ?_⟩
                · cases ht : isTerminal (get p round bid).state
                  · simp only [ht, Bool.false_eq_true, if_false, List.mem_cons]
                    constructor
                    · rintro (hh | hh)
                      · exact absurd hh hib
                      · exact hd4.mp hh
                    · intro hh
                      exact Or.inr (hd4.mpr hh)
                  · simpa [ht] using hd4
                · rw [hd6]
                  by_cases hfail : (get p round bid).state = "failed"
                  · simp [hfail, hib]
                  · simp [hfail]

theorem processRound_sublist {P : Type} (get : P → Nat → Nat → Build P) (wp : Option P)
    (round : Nat) (watched : List Nat) :
    ∀ (munches : List (Nat × Build P)) (failed : List Nat)
      (w' : List Nat) (m' : List (Nat × Build P)) (f' : List Nat),
    (processRound get wp round watched munches failed).2 = .ok (w', m', f') →
    w'.Sublist watched := by
  induction watched with
  | nil =>
    intro munches failed w' m' f' h
    simp [processRound] at h
    obtain ⟨hw, _, _⟩ := h
    subst hw
    exact List.Sublist.refl _
  | cons bid rest ih =>
    intro munches failed w' m' f' h
    cases hl : lookupA munches bid with
    | none => simp only [processRound, hl] at h; simp at h
    | some mm =>
      cases hp : resolveProxy mm wp with
      | none => simp only [processRound, hl, hp] at h; simp at h
      | some p =>
        by_cases hu : (get p round bid).state = "unknown"
        · simp only [processRound, hl, hp, if_pos hu] at h; simp at h
        · cases hr : (processRound get wp round rest
              (updateA munches bid (get p round bid))
              (if (get p round bid).state = "failed" then failed ++ [bid] else failed)).2 with
          | error e2 =>
            simp only [processRound, hl, hp, if_neg hu, hr] at h
            simp at h
          | ok t =>
            obtain ⟨w, ms, fs⟩ := t
            simp only [processRound, hl, hp, if_neg hu, hr] at h
            simp only [Except.ok.injEq, Prod.mk.injEq] at h
            obtain ⟨hw, hm, hf⟩ := h
            subst hw
            have hsub := ih _ _ _ _ _ hr
            cases ht : isTerminal (get p round bid).state
            · simpa [ht] using hsub.cons₂ bid
            · simpa [ht] using hsub.cons bid

theorem processRound_keys {P : Type} (get : P → Nat → Nat → Build P) (wp : Option P)
    (round : Nat) (watched : List Nat) :
    ∀ (munches : List (Nat × Build P)) (failed : List Nat)
      (w' : List Nat) (m' : List (Nat × Build P)) (f' : List Nat),
    (processRound get wp round watched munches failed).2 = .ok (w', m', f') →
    m'.map Prod.fst = munches.map Prod.fst := by
  induction watched with
  | nil =>
    intro munches failed w' m' f' h
    simp [processRound] at h
    obtain ⟨_, hm, _⟩ := h
    subst hm
    rfl
  | cons bid rest ih =>
    intro munches failed w' m' f' h
    cases hl : lookupA munches bid with
    | none => simp only [processRound, hl] at h; simp at h
    | some mm =>
      cases hp : resolveProxy mm wp with
      | none => simp only [processRound, hl, hp] at h; simp at h
      | some p =>
        by_cases hu : (get p round bid).state = "unknown"
        · simp only [processRound, hl, hp, if_pos hu] at h; simp at h
        · cases hr : (processRound get wp round rest
              (updateA munches bid (get p round bid))
              (if (get p round bid).state = "failed" then failed ++ [bid] else failed)).2 with
          | error e2 =>
            simp only [processRound, hl, hp, if_neg hu, hr] at h
            simp at h
          | ok t =>
            obtain ⟨w, ms, fs⟩ := t
            simp only [processRound, hl, hp, if_neg hu, hr] at h
            simp only [Except.ok.injEq, Prod.mk.injEq] at h
            obtain ⟨hw, hm, hf⟩ := h
            subst hm
            have hbmem : bid ∈ munches.map Prod.fst :=
              (lookupA_isSome munches bid).mp (by simp [hl])
            exact (ih _ _ _ _ _ hr).trans (updateA_keys_mem _ _ _ hbmem)

theorem processRound_untouched {P : Type} (get : P → Nat → Nat → Build P) (wp : Option P)
    (round : Nat) (watched : List Nat) :
    ∀ (munches : List (Nat × Build P)) (failed : List Nat)
      (w' : List Nat) (m' : List (Nat × Build P)) (f' : List Nat),
    (processRound get wp round watched munches failed).2 = .ok (w', m', f') →
    ∀ i, i ∉ watched → lookupA m' i = lookupA munches i := by
  induction watched with
  | nil =>
    intro munches failed w' m' f' h
    simp [processRound] at h
    obtain ⟨_, hm, _⟩ := h
    subst hm
    intro i _
    rfl
  | cons bid rest ih =>
    intro munches failed w' m' f' h
    cases hl : lookupA munches bid with
    | none => simp only [processRound, hl] at h; simp at h
    | some mm =>
      cases hp : resolveProxy mm wp with
      | none => simp only [processRound, hl, hp] at h; simp at h
      | some p =>
        by_cases hu : (get p round bid).state = "unknown"
        · simp only [processRound, hl, hp, if_pos hu] at h; simp at h
        · cases hr : (processRound get wp round rest
              (updateA munches bid (get p round bid))
              (if (get p round bid).state = "failed" then failed ++ [bid] else failed)).2 with
          | error e2 =>
            simp only [processRound, hl, hp, if_neg hu, hr] at h
            simp at h
          | ok t =>
            obtain ⟨w, ms, fs⟩ := t
            simp only [processRound, hl, hp, if_neg hu, hr] at h
            simp only [Except.ok.injEq, Prod.mk.injEq] at h
            obtain ⟨hw, hm, hf⟩ := h
            subst hm
            intro i hi
            have hib : i ≠ bid := fun hh => hi (hh ▸ List.mem_cons_self _ _)
            have hir : i ∉ rest := fun hh => hi (List.mem_cons_of_mem _ hh)
            rw [ih _ _ _ _ _ hr i hir, lookupA_updateA, if_neg hib]

theorem processRound_events {P : Type} (get : P → Nat → Nat → Build P) (wp : Option P)
    (round : Nat) (watched : List Nat) :
    ∀ (munches : List (Nat × Build P)) (failed : List Nat),
    ∀ e ∈ (processRound get wp round watched munches failed).1,
    ∃ p i, e = Event.fetch p round i ∧ i ∈ watched := by
  induction watched with
  | nil =>
    intro munches failed e he
    simp [processRound] at he
  | cons bid rest ih =>
    intro munches failed e he
    cases hl : lookupA munches bid with
    | none => simp only [processRound, hl] at he; simp at he
    | some mm =>
      cases hp : resolveProxy mm wp with
      | none => simp only [processRound, hl, hp] at he; simp at he
      | some p =>
        by_cases hu : (get p round bid).state = "unknown"
        · simp only [processRound, hl, hp, if_pos hu] at he
          simp at he
          exact ⟨p, bid, by simp [he], List.mem_cons_self _ _⟩
        · simp only [processRound, hl, hp, if_neg hu] at he
          rcases List.mem_cons.mp he with he1 | he1
          · exact ⟨p, bid, he1, List.mem_cons_self _ _⟩
          · obtain ⟨q, i, hei, hii⟩ := ih _ _ e he1
            exact ⟨q, i, hei, List.mem_cons_of_mem _ hii⟩

theorem resolveProxy_isSome_of_wp {P : Type} (b : Build P) (wp : Option P)
    (h : wp.isSome) : (resolveProxy b wp).isSome := by
  cases hb : b.proxy <;> simp [resolveProxy, hb, h]

theorem resolveProxy_isSome_of_proxy {P : Type} (b : Build P) (wp : Option P)
    (h : b.proxy.isSome) : (resolveProxy b wp).isSome := by
  cases hb : b.proxy
  · rw [hb] at h; simp at h
  · simp [resolveProxy, hb]

theorem processRound_ok_exists {P : Type} (get : P → Nat → Nat → Build P) (wp : Option P)
    (round : Nat) (watched : List Nat)
    (hpx : ∀ (p : P) (i : Nat), ((get p round i).proxy).isSome)
    (hnu : ∀ (p : P) (i : Nat), (get p round i).state ≠ "unknown") :
    ∀ (munches : List (Nat × Build P)) (failed : List Nat),
    (∀ i ∈ watched, ∃ b, lookupA munches i = some b ∧ (resolveProxy b wp).isSome) →
    ∃ t, (processRound get wp round watched munches failed).2 = .ok t := by
  induction watched with
  | nil =>
    intro munches failed _
    exact ⟨([], munches, failed), by simp [processRound]⟩
  | cons bid rest ih =>
    intro munches failed hwm
    obtain ⟨b0, hl, hres⟩ := hwm bid (List.mem_cons_self _ _)
    obtain ⟨p, hp⟩ := Option.isSome_iff_exists.mp hres
    have hwm1 : ∀ i ∈ rest,
        ∃ b, lookupA (updateA munches bid (get p round bid)) i = some b ∧
          (resolveProxy b wp).isSome := by
      intro i hi
      rcases eq_or_ne i bid with hib | hib
      · subst hib
        refine ⟨get p round i, ?_, ?_⟩
        · rw [lookupA_updateA]; simp
        · exact resolveProxy_isSome_of_proxy _ _ (hpx p i)
      · obtain ⟨b1, hb1, hres1⟩ := hwm i (List.mem_cons_of_mem _ hi)
        exact ⟨b1, by rw [lookupA_updateA, if_neg hib]; exact hb1, hres1⟩
    obtain ⟨⟨w, ms, fs⟩, hr⟩ := ih _
      (if (get p round bid).state = "failed" then failed ++ [bid] else failed) hwm1
    refine ⟨((if isTerminal (get p round bid).state then w else bid :: w), ms, fs), ?_⟩
    simp only [processRound, hl, hp, if_neg (hnu p bid), hr]

theorem processRound_preserves_proxies {P : Type} (get : P → Nat → Nat → Build P)
    (wp : Option P) (round : Nat) (watched : List Nat)
    (hpx : ∀ (p : P) (i : Nat), ((get p round i).proxy).isSome) :
    ∀ (munches : List (Nat × Build P)) (failed : List Nat)
      (w' : List Nat) (m' : List (Nat × Build P)) (f' : List Nat),
    (∀ i b, lookupA munches i = some b → b.proxy.isSome) →
    (processRound get wp round watched munches failed).2 = .ok (w', m', f') →
    ∀ i b, lookupA m' i = some b → b.proxy.isSome := by
  induction watched with
  | nil =>
    intro munches failed w' m' f' hall h
    simp [processRound] at h
    obtain ⟨_, hm, _⟩ := h
    subst hm
    exact hall
  | cons bid rest ih =>
    intro munches failed w' m' f' hall h
    cases hl : lookupA munches bid with
    | none => simp only [processRound, hl] at h; simp at h
    | some mm =>
      cases hp : resolveProxy mm wp with
      | none => simp only [processRound, hl, hp] at h; simp at h
      | some p =>
        by_cases hu : (get p round bid).state = "unknown"
        · simp only [processRound, hl, hp, if_pos hu] at h; simp at h
        · cases hr : (processRound get wp round rest
              (updateA munches bid (get p round bid))
              (if (get p round bid).state = "failed" then failed ++ [bid] else failed)).2 with
          | error e2 =>
            simp only [processRound, hl, hp, if_neg hu, hr] at h
            simp at h
          | ok t =>
            obtain ⟨w, ms, fs⟩ := t
            simp only [processRound, hl, hp, if_neg hu, hr] at h
            simp only [Except.ok.injEq, Prod.mk.injEq] at h
            obtain ⟨hw, hm, hf⟩ := h
            subst hm
            have hall1 : ∀ i b,
                lookupA (updateA munches bid (get p round bid)) i = some b →
                b.proxy.isSome := by
              intro i b hb
              rw [lookupA_updateA] at hb
              by_cases hib : i = bid
              · rw [if_pos hib] at hb
                cases hb
                exact hpx p bid
              · rw [if_neg hib] at hb
                exact hall i b hb
            exact ih _ _ _ _ _ hall1 hr

theorem processRound_wp_congr {P : Type} (get : P → Nat → Nat → Build P)
    (wp1 wp2 : Option P) (round : Nat) (watched : List Nat)
    (hpx : ∀ (p : P) (i : Nat), ((get p round i).proxy).isSome) :
    ∀ (munches : List (Nat × Build P)) (failed : List Nat),
    (∀ i b, lookupA munches i = some b → b.proxy.isSome) →
    processRound get wp1 round watched munches failed
      = processRound get wp2 round watched munches failed := by
  induction watched with
  | nil => intro munches failed _; rfl
  | cons bid rest ih =>
    intro munches failed hall
    cases hl : lookupA munches bid with
    | none => simp only [processRound, hl]
    | some mm =>
      have hmm : mm.proxy.isSome := hall bid mm hl
      obtain ⟨q, hq⟩ := Option.isSome_iff_exists.mp hmm
      have hres1 : resolveProxy mm wp1 = some q := by simp [resolveProxy, hq]
      have hres2 : resolveProxy mm wp2 = some q := by simp [resolveProxy, hq]
      have hall1 : ∀ i b,
          lookupA (updateA munches bid (get q round bid)) i = some b →
          b.proxy.isSome := by
        intro i b hb
        rw [lookupA_updateA] at hb
        by_cases hib : i = bid
        · rw [if_pos hib] at hb
          cases hb
          exact hpx q bid
        · rw [if_neg hib] at hb
          exact hall i b hb
      simp only [processRound, hl, hres1, hres2, ih _ _ hall1]

theorem waitAux_error_cases {P : Type} (get : P → Nat → Nat → Build P) (wp : Option P)
    (cb : Bool) (interval timeout t0 : Nat) (clock : Nat → Nat) :
    ∀ (fuel round : Nat) (watched : List Nat) (munches : List (Nat × Build P))
      (failed : List Nat) (e : PyError),
    (waitAux get wp cb interval timeout t0 clock fuel round watched munches failed).2
      = .error e →
    e = .coprException "Unknown status." ∨ e = .coprException "Timeouted"
      ∨ e = .attributeError ∨ e = .keyError := by
  intro fuel
  induction fuel with
  | zero => intro round watched munches failed e h; simp [waitAux] at h
  | succ fuel ih =>
    intro round watched munches failed e h
    cases hr : (processRound get wp round watched munches failed).2 with
    | error e2 =>
      simp only [waitAux, hr] at h
      simp at h
      subst h
      rcases processRound_error_cases get wp round watched munches failed e2 hr with
        h1 | h1 | h1 <;> simp [h1]
    | ok t =>
      obtain ⟨w1, m1, f1⟩ := t
      by_cases hemp : w1.isEmpty
      · simp only [waitAux, hr, hemp, if_true] at h
        simp at h
      · by_cases hto : timeout ≠ 0 ∧ t0 + timeout ≤ clock round
        · simp only [waitAux, hr, hemp, if_false, if_pos hto] at h
          simp at h
          subst h
          simp
        · simp only [waitAux, hr, hemp, if_false, if_neg hto] at h
          exact ih _ _ _ _ _ h

theorem waitAux_timeouted_necessary {P : Type} (get : P → Nat → Nat → Build P)
    (wp : Option P) (cb : Bool) (interval timeout t0 : Nat) (clock : Nat → Nat) :
    ∀ (fuel round : Nat) (watched : List Nat) (munches : List (Nat × Build P))
      (failed : List Nat),
    (waitAux get wp cb interval timeout t0 clock fuel round watched munches failed).2
      = .error (.coprException "Timeouted") →
    timeout ≠ 0 ∧ ∃ r, round ≤ r ∧ t0 + timeout ≤ clock r := by
  intro fuel
  induction fuel with
  | zero => intro round watched munches failed h; simp [waitAux] at h
  | succ fuel ih =>
    intro round watched munches failed h
    cases hr : (processRound get wp round watched munches failed).2 with
    | error e2 =>
      simp only [waitAux, hr] at h
      simp at h
      rcases processRound_error_cases get wp round watched munches failed e2 hr with
        h1 | h1 | h1 <;> simp [h1] at h
    | ok t =>
      obtain ⟨w1, m1, f1⟩ := t
      by_cases hemp : w1.isEmpty
      · simp only [waitAux, hr, hemp, if_true] at h
        simp at h
      · by_cases hto : timeout ≠ 0 ∧ t0 + timeout ≤ clock round
        · exact ⟨hto.1, round, Nat.le_refl _, hto.2⟩
        · simp only [waitAux, hr, hemp, if_false, if_neg hto] at h
          obtain ⟨h1, r, hr1, hr2⟩ := ih _ _ _ _ h
          exact ⟨h1, r, Nat.le_of_succ_le hr1, hr2⟩

theorem waitAux_fetch_mem {P : Type} (get : P → Nat → Nat → Build P) (wp : Option P)
    (cb : Bool) (interval timeout t0 : Nat) (clock : Nat → Nat) :
    ∀ (fuel round : Nat) (watched : List Nat) (munches : List (Nat × Build P))
      (failed : List Nat),
    ∀ e ∈ (waitAux get wp cb interval timeout t0 clock fuel round watched munches failed).1,
    ∀ (q : P) (r i : Nat), e = Event.fetch q r i → i ∈ watched := by
  intro fuel
  induction fuel with
  | zero => intro round watched munches failed e he; simp [waitAux] at he
  | succ fuel ih =>
    intro round watched munches failed e he q r i hei
    subst hei
    cases hr : (processRound get wp round watched munches failed).2 with
    | error e2 =>
      simp only [waitAux, hr] at he
      obtain ⟨p2, i2, hei2, hmem2⟩ := processRound_events get wp round watched munches failed _ he
      cases hei2
      exact hmem2
    | ok t =>
      obtain ⟨w1, m1, f1⟩ := t
      have hcbev : ∀ ev ∈ (if cb then [Event.callbackCall (dictValues m1)] else []),
          ∀ (q2 : P) (r2 i2 : Nat), ev ≠ Event.fetch q2 r2 i2 := by
        intro ev hev q2 r2 i2
        cases cb <;> simp at hev
        subst hev
        simp
      by_cases hemp : w1.isEmpty
      · simp only [waitAux, hr, hemp, if_true] at he
        rcases List.mem_append.mp he with he1 | he1
        · obtain ⟨p2, i2, hei2, hmem2⟩ :=
            processRound_events get wp round watched munches failed _ he1
          cases hei2
          exact hmem2
        · exact absurd rfl (hcbev _ he1 q r i)
      · by_cases hto : timeout ≠ 0 ∧ t0 + timeout ≤ clock round
        · simp only [waitAux, hr, hemp, if_false, if_pos hto] at he
          rcases List.mem_append.mp he with he1 | he1
          · obtain ⟨p2, i2, hei2, hmem2⟩ :=
              processRound_events get wp round watched munches failed _ he1
            cases hei2
            exact hmem2
          · exact absurd rfl (hcbev _ he1 q r i)
        · simp only [waitAux, hr, hemp, if_false, if_neg hto] at he
          rcases List.mem_append.mp he with he1 | he1
          · rcases List.mem_append.mp he1 with he2 | he2
            · obtain ⟨p2, i2, hei2, hmem2⟩ :=
                processRound_events get wp round watched munches failed _ he2
              cases hei2
              exact hmem2
            · exact absurd rfl (hcbev _ he2 q r i)
          · rcases List.mem_cons.mp he1 with he2 | he2
            · simp at he2
            · have hsub := processRound_sublist get wp round watched munches failed _ _ _ hr
              exact hsub.subset (ih _ _ _ _ _ he2 q r i rfl)

theorem waitAux_finished_preserves {P : Type} (get : P → Nat → Nat → Build P)
    (wp : Option P) (cb : Bool) (interval timeout t0 : Nat) (clock : Nat → Nat) :
    ∀ (fuel round : Nat) (watched : List Nat) (munches : List (Nat × Build P))
      (failed : List Nat) (res : List (Build P)) (fl : List Nat),
    (waitAux get wp cb interval timeout t0 clock fuel round watched munches failed).2
      = .finished res fl →
    ∀ i b, i ∉ watched → lookupA munches i = some b → b ∈ res := by
  intro fuel
  induction fuel with
  | zero => intro round watched munches failed res fl h; simp [waitAux] at h
  | succ fuel ih =>
    intro round watched munches failed res fl h i b hi hb
    cases hr : (processRound get wp round watched munches failed).2 with
    | error e2 =>
      simp only [waitAux, hr] at h
      simp at h
    | ok t =>
      obtain ⟨w1, m1, f1⟩ := t
      have hm1 : lookupA m1 i = some b := by
        rw [processRound_untouched get wp round watched munches failed _ _ _ hr i hi]
        exact hb
      by_cases hemp : w1.isEmpty
      · simp only [waitAux, hr, hemp, if_true] at h
        simp at h
        obtain ⟨hres, _⟩ := h
        subst hres
        exact List.mem_map_of_mem _ (lookupA_mem _ _ _ hm1)
      · by_cases hto : timeout ≠ 0 ∧ t0 + timeout ≤ clock round
        · simp only [waitAux, hr, hemp, if_false, if_pos hto] at h
          simp at h
        · simp only [waitAux, hr, hemp, if_false, if_neg hto] at h
          have hi1 : i ∉ w1 := fun hh =>
            hi ((processRound_sublist get wp round watched munches failed _ _ _ hr).subset hh)
          exact ih _ _ _ _ _ _ h i b hi1 hm1

theorem waitAux_finished_values {P : Type} (get : P → Nat → Nat → Build P)
    (wp : Option P) (cb : Bool) (interval timeout t0 : Nat) (clock : Nat → Nat) :
    ∀ (fuel round : Nat) (watched : List Nat) (munches : List (Nat × Build P))
      (failed : List Nat) (res : List (Build P)) (fl : List Nat),
    (waitAux get wp cb interval timeout t0 clock fuel round watched munches failed).2
      = .finished res fl →
    ∃ mfin : List (Nat × Build P), res = dictValues mfin ∧
      mfin.map Prod.fst = munches.map Prod.fst ∧
      (∀ i, i ∉ watched → lookupA mfin i = lookupA munches i) := by
  intro fuel
  induction fuel with
  | zero => intro round watched munches failed res fl h; simp [waitAux] at h
  | succ fuel ih =>
    intro round watched munches failed res fl h
    cases hr : (processRound get wp round watched munches failed).2 with
    | error e2 =>
      simp only [waitAux, hr] at h
      simp at h
    | ok t =>
      obtain ⟨w1, m1, f1⟩ := t
      have hkeys := processRound_keys get wp round watched munches failed _ _ _ hr
      have huntouched := processRound_untouched get wp round watched munches failed _ _ _ hr
      by_cases hemp : w1.isEmpty
      · simp only [waitAux, hr, hemp, if_true] at h
        simp at h
        obtain ⟨hres, _⟩ := h
        subst hres
        exact ⟨m1, rfl, hkeys, huntouched⟩
      · by_cases hto : timeout ≠ 0 ∧ t0 + timeout ≤ clock round
        · simp only [waitAux, hr, hemp, if_false, if_pos hto] at h
          simp at h
        · simp only [waitAux, hr, hemp, if_false, if_neg hto] at h
          obtain ⟨mfin, h1, h2, h3⟩ := ih _ _ _ _ _ _ h
          refine ⟨mfin, h1, h2.trans hkeys, ?_⟩
          intro i hi
          have hi1 : i ∉ w1 := fun hh =>
            hi ((processRound_sublist get wp round watched munches failed _ _ _ hr).subset hh)
          rw [h3 i hi1, huntouched i hi]

theorem processRound_unknown {P : Type} (get : P → Nat → Nat → Build P) (wp : Option P)
    (round : Nat) (bad : Nat)
    (hw : wp.isSome)
    (hbadu : ∀ p : P, (get p round bad).state = "unknown") :
    ∀ (pre : List Nat),
    (∀ (p : P) (i : Nat), i ∈ pre → (get p round i).state ≠ "unknown") →
    ∀ (post : List Nat) (munches : List (Nat × Build P)) (failed : List Nat),
    (∀ i, i ∈ pre ++ [bad] → (lookupA munches i).isSome) →
    (processRound get wp round (pre ++ bad :: post) munches failed).2
      = .error (.coprException "Unknown status.")
    ∧ (∀ e ∈ (processRound get wp round (pre ++ bad :: post) munches failed).1,
        ∃ p i, e = Event.fetch p round i)
    ∧ (processRound get wp round (pre ++ bad :: post) munches failed).1.length
      = pre.length + 1 := by
  intro pre
  induction pre with
  | nil =>
    intro _ post munches failed hmem
    have hbsome := hmem bad (by simp)
    obtain ⟨b0, hl⟩ := Option.isSome_iff_exists.mp hbsome
    obtain ⟨p, hp⟩ := Option.isSome_iff_exists.mp (resolveProxy_isSome_of_wp b0 wp hw)
    have hu : (get p round bad).state = "unknown" := hbadu p
    simp only [List.nil_append]
    refine ⟨?_, ?_, ?_⟩
    · simp only [processRound, hl, hp, if_pos hu]
    · intro e he
      simp only [processRound, hl, hp, if_pos hu] at he
      simp at he
      exact ⟨p, bad, by simp [he]⟩
    · simp only [processRound, hl, hp, if_pos hu]
      rfl
  | cons a pre' ih =>
    intro hpre post munches failed hmem
    have hasome := hmem a (by simp)
    obtain ⟨b0, hl⟩ := Option.isSome_iff_exists.mp hasome
    obtain ⟨p, hp⟩ := Option.isSome_iff_exists.mp (resolveProxy_isSome_of_wp b0 wp hw)
    have hnu : (get p round a).state ≠ "unknown" := hpre p a (List.mem_cons_self _ _)
    have hpre' : ∀ (q : P) (i : Nat), i ∈ pre' → (get q round i).state ≠ "unknown" :=
      fun q i hi => hpre q i (List.mem_cons_of_mem _ hi)
    have hmem' : ∀ i, i ∈ pre' ++ [bad] →
        (lookupA (updateA munches a (get p round a)) i).isSome := by
      intro i hi
      rw [lookupA_updateA]
      by_cases hia : i = a
      · simp [hia]
      · rw [if_neg hia]
        exact hmem i (by
          rcases List.mem_append.mp hi with h1 | h1
          · exact List.mem_append.mpr (Or.inl (List.mem_cons_of_mem _ h1))
          · exact List.mem_append.mpr (Or.inr h1))
    obtain ⟨ih1, ih2, ih3⟩ := ih hpre' post
      (updateA munches a (get p round a))
      (if (get p round a).state = "failed" then failed ++ [a] else failed) hmem'
    have hcons : (a :: pre') ++ bad :: post = a :: (pre' ++ bad :: post) := rfl
    rw [hcons]
    refine ⟨?_, ?_, ?_⟩
    · simp only [processRound, hl, hp, if_neg hnu, ih1]
    · intro e he
      simp only [processRound, hl, hp, if_neg hnu] at he
      rcases List.mem_cons.mp he with he1 | he1
      · exact ⟨p, a, he1⟩
      · exact ih2 e he1
    · simp only [processRound, hl, hp, if_neg hnu, List.length_cons, ih3]

theorem traceShape_append_fetches {P : Type} (n : Nat) (evs tl : List (Event P))
    (h : ∀ e ∈ evs, ∃ p r i, e = Event.fetch p r i) :
    traceShape n (evs ++ tl) = traceShape n tl := by
  induction evs with
  | nil => rfl
  | cons e evs' ih =>
    obtain ⟨p, r, i, he⟩ := h e (List.mem_cons_self _ _)
    subst he
    simp only [List.cons_append, traceShape]
    exact ih (fun e2 he2 => h e2 (List.mem_cons_of_mem _ he2))

theorem waitAux_traceShape {P : Type} (get : P → Nat → Nat → Build P) (wp : Option P)
    (interval timeout t0 : Nat) (clock : Nat → Nat) :
    ∀ (fuel round : Nat) (watched : List Nat) (munches : List (Nat × Build P))
      (failed : List Nat),
    ((waitAux get wp true interval timeout t0 clock fuel round watched munches failed).2
        = .error (.coprException "Timeouted")
      ∨ ∃ res fl,
        (waitAux get wp true interval timeout t0 clock fuel round watched munches failed).2
          = .finished res fl) →
    traceShape munches.length
      (waitAux get wp true interval timeout t0 clock fuel round watched munches failed).1
      = true := by
  intro fuel
  induction fuel with
  | zero =>
    intro round watched munches failed h
    rcases h with h | ⟨res, fl, h⟩ <;> simp [waitAux] at h
  | succ fuel ih =>
    intro round watched munches failed h
    cases hr : (processRound get wp round watched munches failed).2 with
    | error e2 =>
      rcases processRound_error_cases get wp round watched munches failed e2 hr with
        h1 | h1 | h1 <;>
      · subst h1
        rcases h with h | ⟨res, fl, h⟩ <;> simp only [waitAux, hr] at h <;> simp at h
    | ok t =>
      obtain ⟨w1, m1, f1⟩ := t
      have hfe : ∀ e ∈ (processRound get wp round watched munches failed).1,
          ∃ p r i, e = Event.fetch p r i := by
        intro e he
        obtain ⟨p, i, hei, _⟩ := processRound_events get wp round watched munches failed e he
        exact ⟨p, round, i, hei⟩
      have hlen : (dictValues m1).length = munches.length := by
        have hkeq := processRound_keys get wp round watched munches failed _ _ _ hr
        have h2 : m1.length = munches.length := by
          have := congrArg List.length hkeq
          simpa using this
        simp [dictValues, h2]
      by_cases hemp : w1.isEmpty
      · have h1 : (waitAux get wp true interval timeout t0 clock (fuel + 1) round
            watched munches failed).1
            = (processRound get wp round watched munches failed).1
              ++ [Event.callbackCall (dictValues m1)] := by
          simp [waitAux, hr, hemp]
        rw [h1, traceShape_append_fetches _ _ _ hfe]
        simp [traceShape, hlen]
      · by_cases hto : timeout ≠ 0 ∧ t0 + timeout ≤ clock round
        · have h1 : (waitAux get wp true interval timeout t0 clock (fuel + 1) round
              watched munches failed).1
              = (processRound get wp round watched munches failed).1
                ++ [Event.callbackCall (dictValues m1)] := by
            simp [waitAux, hr, hemp, hto]
          rw [h1, traceShape_append_fetches _ _ _ hfe]
          simp [traceShape, hlen]
        · have h1 : (waitAux get wp true interval timeout t0 clock (fuel + 1) round
              watched munches failed).1
              = (processRound get wp round watched munches failed).1
                ++ (Event.callbackCall (dictValues m1) :: Event.sleepCall interval
                  :: (waitAux get wp true interval timeout t0 clock fuel (round + 1)
                        w1 m1 f1).1) := by
            simp [waitAux, hr, hemp, hto]
          have h2 : (waitAux get wp true interval timeout t0 clock (fuel + 1) round
              watched munches failed).2
              = (waitAux get wp true interval timeout t0 clock fuel (round + 1)
                  w1 m1 f1).2 := by
            simp [waitAux, hr, hemp, hto]
          have hih := ih (round + 1) w1 m1 f1 (by rw [h2] at h; exact h)
          have hm1len : m1.length = munches.length := by simpa [dictValues] using hlen
          rw [hm1len] at hih
          rw [h1, traceShape_append_fetches _ _ _ hfe]
          simp only [traceShape, hih, hlen]
          simp

theorem waitAux_wp_congr {P : Type} (get : P → Nat → Nat → Build P)
    (wp1 wp2 : Option P) (cb : Bool) (interval timeout t0 : Nat) (clock : Nat → Nat)
    (hpx : ∀ (p : P) (k i : Nat), ((get p k i).proxy).isSome) :
    ∀ (fuel round : Nat) (watched : List Nat) (munches : List (Nat × Build P))
      (failed : List Nat),
    (∀ i b, lookupA munches i = some b → b.proxy.isSome) →
    waitAux get wp1 cb interval timeout t0 clock fuel round watched munches failed
      = waitAux get wp2 cb interval timeout t0 clock fuel round watched munches failed := by
  intro fuel
  induction fuel with
  | zero => intro _ _ _ _ _; rfl
  | succ fuel ih =>
    intro round watched munches failed hall
    have hpr := processRound_wp_congr get wp1 wp2 round watched
      (fun p i => hpx p round i) munches failed hall
    cases hr : (processRound get wp2 round watched munches failed).2 with
    | error e2 =>
      simp only [waitAux, hpr, hr]
    | ok t =>
      obtain ⟨w1, m1, f1⟩ := t
      have hall1 : ∀ i b, lookupA m1 i = some b → b.proxy.isSome :=
        processRound_preserves_proxies get wp2 round watched
          (fun p i => hpx p round i) munches failed w1 m1 f1 hall hr
      simp only [waitAux, hpr, hr, ih (round + 1) w1 m1 f1 hall1]

theorem lookupA_of_mem_nodup {P : Type} (m : List (Nat × Build P)) (i : Nat) (b : Build P)
    (hnd : (m.map Prod.fst).Nodup) (h : (i, b) ∈ m) : lookupA m i = some b := by
  induction m with
  | nil => simp at h
  | cons hd tl ih =>
    obtain ⟨k0, v0⟩ := hd
    simp only [List.map_cons, List.nodup_cons] at hnd
    rcases List.mem_cons.mp h with h1 | h1
    · have hik : i = k0 := congrArg Prod.fst h1
      have hbv : b = v0 := congrArg Prod.snd h1
      subst hik
      simp [lookupA, hbv]
    · have hik : k0 ≠ i := by
        intro hh
        subst hh
        exact hnd.1 (List.mem_map_of_mem Prod.fst h1)
      simp only [lookupA, if_neg hik]
      exact ih hnd.2 h1

theorem foldl_updateA_keys {P : Type} (builds : List (Build P)) :
    ∀ (m : List (Nat × Build P)),
    (m.map Prod.fst ++ builds.map Build.id).Nodup →
    (builds.foldl (fun acc b => updateA acc b.id b) m).map Prod.fst
      = m.map Prod.fst ++ builds.map Build.id := by
  induction builds with
  | nil => intro m _; simp
  | cons b bs ih =>
    intro m h
    have hb : b.id ∉ m.map Prod.fst := by
      intro hmem
      have hdisj := (List.nodup_append.mp h).2.2
      exact hdisj hmem (by simp)
    have hkeys := updateA_keys_not_mem m b.id b hb
    have hnd2 : ((updateA m b.id b).map Prod.fst ++ bs.map Build.id).Nodup := by
      rw [hkeys, List.append_assoc]
      simpa using h
    rw [List.foldl_cons, ih _ hnd2, hkeys]
    simp

theorem foldl_updateA_entries {P : Type} (builds : List (Build P)) :
    ∀ (m : List (Nat × Build P)) (i : Nat) (b : Build P),
    (i, b) ∈ builds.foldl (fun acc x => updateA acc x.id x) m →
    (i, b) ∈ m ∨ (b ∈ builds ∧ i = b.id) := by
  induction builds with
  | nil => intro m i b h; exact Or.inl h
  | cons x xs ih =>
    intro m i b h
    rw [List.foldl_cons] at h
    rcases ih _ _ _ h with h2 | h2
    · rcases updateA_mem _ _ _ _ _ h2 with h3 | h3
      · exact Or.inl h3
      · refine Or.inr ⟨?_, ?_⟩
        · rw [h3.2]; exact List.mem_cons_self _ _
        · rw [h3.1, h3.2]
    · exact Or.inr ⟨List.mem_cons_of_mem _ h2.1, h2.2⟩

theorem initMunches_keys {P : Type} (builds : List (Build P))
    (hnd : (builds.map Build.id).Nodup) :
    (initMunches builds).map Prod.fst = builds.map Build.id := by
  have := foldl_updateA_keys builds [] (by simpa using hnd)
  simpa [initMunches] using this

theorem initMunches_entries {P : Type} (builds : List (Build P)) (i : Nat) (b : Build P)
    (h : (i, b) ∈ initMunches builds) : b ∈ builds ∧ i = b.id := by
  rcases foldl_updateA_entries builds [] i b h with h2 | h2
  · simp at h2
  · exact h2

theorem dictValues_map_id {P : Type} (m : List (Nat × Build P))
    (hnd : (m.map Prod.fst).Nodup)
    (hvid : ∀ i b, lookupA m i = some b → b.id = i) :
    (dictValues m).map Build.id = m.map Prod.fst := by
  simp only [dictValues, List.map_map]
  apply List.map_congr_left
  intro e he
  exact hvid e.1 e.2 (lookupA_of_mem_nodup m e.1 e.2 hnd (by simpa using he))

theorem waitAux_all_terminal {P : Type} (get : P → Nat → Nat → Build P) (wp : Option P)
    (cb : Bool) (interval t0 : Nat) (clock : Nat → Nat) (N : Nat)
    (hpx : ∀ (p : P) (k i : Nat), ((get p k i).proxy).isSome)
    (hid : ∀ (p : P) (k i : Nat), (get p k i).id = i)
    (hnu : ∀ (p : P) (k i : Nat), (get p k i).state ≠ "unknown") :
    ∀ (fuel round : Nat) (watched : List Nat) (munches : List (Nat × Build P))
      (failed : List Nat),
    watched ≠ [] →
    watched.Nodup →
    (munches.map Prod.fst).Nodup →
    (∀ i ∈ watched, ∃ b, lookupA munches i = some b ∧ (resolveProxy b wp).isSome) →
    (∀ i b, lookupA munches i = some b → b.id = i) →
    (∀ i b, i ∉ watched → lookupA munches i = some b → isTerminal b.state = true) →
    (∀ i ∈ watched, ∃ k, round ≤ k ∧ k < N ∧
      ∀ p : P, isTerminal (get p k i).state = true) →
    N ≤ round + fuel →
    ∃ res fl,
      (waitAux get wp cb interval 0 t0 clock fuel round watched munches failed).2
          = .finished res fl
      ∧ res.map Build.id = munches.map Prod.fst
      ∧ ∀ b ∈ res, isTerminal b.state = true := by
  intro fuel
  induction fuel with
  | zero =>
    intro round watched munches failed hne hndw _ _ _ _ hterm hfuel
    obtain ⟨i, hi⟩ := List.exists_mem_of_ne_nil watched hne
    obtain ⟨k, hk1, hk2, _⟩ := hterm i hi
    omega
  | succ fuel ih =>
    intro round watched munches failed hne hndw hknd hwm hvid hout hterm hfuel
    obtain ⟨⟨w1, m1, f1⟩, hr⟩ := processRound_ok_exists get wp round watched
      (fun p i => hpx p round i) (fun p i => hnu p round i) munches failed hwm
    obtain ⟨mA, mB, mC, mH, mF, mE, mD⟩ :=
      processRound_ok_spec get wp round watched munches failed w1 m1 f1 hndw hr
    have hknd1 : (m1.map Prod.fst).Nodup := by rw [mB]; exact hknd
    have hvid1 : ∀ i b, lookupA m1 i = some b → b.id = i := by
      intro i b hb
      by_cases hi : i ∈ watched
      · obtain ⟨b0, p, _, _, hd3, _, _, _⟩ := mD i hi
        rw [hb] at hd3
        cases hd3
        exact hid p round i
      · rw [mC i hi] at hb
        exact hvid i b hb
    have hout1 : ∀ i b, i ∉ w1 → lookupA m1 i = some b → isTerminal b.state = true := by
      intro i b hi1 hb
      by_cases hi : i ∈ watched
      · obtain ⟨b0, p, _, _, hd3, hd4, _, _⟩ := mD i hi
        rw [hb] at hd3
        cases hd3
        cases hter : isTerminal (get p round i).state
        · exact absurd (hd4.mpr hter) hi1
        · rfl
      · rw [mC i hi] at hb
        exact hout i b hi hb
    by_cases hemp : w1 = []
    · subst hemp
      refine ⟨dictValues m1, f1, ?_, ?_, ?_⟩
      · simp [waitAux, hr]
      · rw [dictValues_map_id m1 hknd1 hvid1, mB]
      · intro b hb
        obtain ⟨e, he, heb⟩ := List.mem_map.mp hb
        subst heb
        exact hout1 e.1 e.2 (by simp)
          (lookupA_of_mem_nodup m1 e.1 e.2 hknd1 (by simpa using he))
    · have hndw1 : w1.Nodup := List.Nodup.sublist mA hndw
      have hwm1 : ∀ i ∈ w1, ∃ b, lookupA m1 i = some b ∧ (resolveProxy b wp).isSome := by
        intro i hi1
        obtain ⟨b0, p, _, _, hd3, _, _, _⟩ := mD i (mA.subset hi1)
        exact ⟨get p round i, hd3, resolveProxy_isSome_of_proxy _ _ (hpx p round i)⟩
      have hterm1 : ∀ i ∈ w1, ∃ k, round + 1 ≤ k ∧ k < N ∧
          ∀ p : P, isTerminal (get p k i).state = true := by
        intro i hi1
        obtain ⟨k, hk1, hk2, hk3⟩ := hterm i (mA.subset hi1)
        refine ⟨k, ?_, hk2, hk3⟩
        rcases Nat.lt_or_ge round k with hlt | hge
        · omega
        · exfalso
          have hkr : k = round := by omega
          subst hkr
          obtain ⟨b0, p, _, _, _, hd4, _, _⟩ := mD i (mA.subset hi1)
          have := hd4.mp hi1
          rw [hk3 p] at this
          simp at this
      obtain ⟨res, fl, hfin, hmap, hter⟩ := ih (round + 1) w1 m1 f1 hemp hndw1 hknd1
        hwm1 hvid1 hout1 hterm1 (by omega)
      refine ⟨res, fl, ?_, hmap.trans mB, hter⟩
      have hemp2 : w1.isEmpty = false := by
        cases w1
        · exact absurd rfl hemp
        · rfl
      have h2 : (waitAux get wp cb interval 0 t0 clock (fuel + 1) round
          watched munches failed).2
          = (waitAux get wp cb interval 0 t0 clock fuel (round + 1) w1 m1 f1).2 := by
        simp [waitAux, hr, hemp2]
      rw [h2]
      exact hfin

/-! ### Claim theorems -/

/-- C10: on the empty list of jobs, `wait` performs no fetch and no sleep,
invokes the callback (when supplied) exactly once with the empty list, and
returns the empty list in its first round, whatever the interval, the
timeout, the clock and the waitable's own proxy. -/
theorem wait_empty_list {P : Type} (get : P → Nat → Nat → Build P) (pr : Option P)
    (cb : Bool) (interval timeout t0 : Nat) (clock : Nat → Nat) (fuel : Nat) :
    wait get (.listOf [] pr) cb interval timeout t0 clock (fuel + 1)
      = ((if cb then [Event.callbackCall []] else []), .finished [] []) := by
  cases cb <;> rfl

/-- C2: if a fetch in a round returns status "unknown", `wait` raises
`CoprException "Unknown status."` (what the spec calls `ProtocolError`) at
once: the round's trace consists of the fetches of the jobs processed
earlier plus the offending fetch — no further fetch, no callback invocation
and no sleep follow — and no result is returned. -/
theorem wait_unknown_immediate {P : Type} (get : P → Nat → Nat → Build P)
    (wp : Option P) (cb : Bool) (interval timeout t0 : Nat) (clock : Nat → Nat)
    (fuel round : Nat) (pre post : List Nat) (bad : Nat)
    (munches : List (Nat × Build P)) (failed : List Nat)
    (hw : wp.isSome)
    (hbadu : ∀ p : P, (get p round bad).state = "unknown")
    (hpre : ∀ (p : P) (i : Nat), i ∈ pre → (get p round i).state ≠ "unknown")
    (hmem : ∀ i, i ∈ pre ++ [bad] → (lookupA munches i).isSome) :
    (waitAux get wp cb interval timeout t0 clock (fuel + 1) round (pre ++ bad :: post)
        munches failed).2 = .error (.coprException "Unknown status.")
    ∧ (∀ e ∈ (waitAux get wp cb interval timeout t0 clock (fuel + 1) round
        (pre ++ bad :: post) munches failed).1, ∃ p i, e = Event.fetch p round i)
    ∧ (waitAux get wp cb interval timeout t0 clock (fuel + 1) round (pre ++ bad :: post)
        munches failed).1.length = pre.length + 1 := by
  obtain ⟨h1, h2, h3⟩ :=
    processRound_unknown get wp round bad hw hbadu pre hpre post munches failed hmem
  have hfst : (waitAux get wp cb interval timeout t0 clock (fuel + 1) round
      (pre ++ bad :: post) munches failed).1
      = (processRound get wp round (pre ++ bad :: post) munches failed).1 := by
    simp [waitAux, h1]
  have hsnd : (waitAux get wp cb interval timeout t0 clock (fuel + 1) round
      (pre ++ bad :: post) munches failed).2
      = .error (.coprException "Unknown status.") := by
    simp [waitAux, h1]
  exact ⟨hsnd, by rw [hfst]; exact h2, by rw [hfst]; exact h3⟩

/-- C3: `wait` raises `CoprException "Timeouted"` (the spec's
`TimeoutError`) only when the timeout is nonzero and the clock has reached
`t0 + timeout` at some round boundary, so a zero timeout never times out;
conversely, a round that leaves the watched set empty returns normally even
with the deadline long passed, while a completed round with jobs still
watched, a nonzero timeout and the deadline reached raises the timeout right
after that round's callback, without sleeping again. -/
theorem wait_timeout_characterization {P : Type} (get : P → Nat → Nat → Build P)
    (wp : Option P) (cb : Bool) (interval timeout t0 : Nat) (clock : Nat → Nat) :
    (∀ (fuel round : Nat) (watched : List Nat) (munches : List (Nat × Build P))
        (failed : List Nat),
      timeout = 0 →
      (waitAux get wp cb interval timeout t0 clock fuel round watched munches failed).2
        ≠ .error (.coprException "Timeouted"))
    ∧ (∀ (fuel round : Nat) (watched : List Nat) (munches : List (Nat × Build P))
        (failed : List Nat),
      (waitAux get wp cb interval timeout t0 clock fuel round watched munches failed).2
        = .error (.coprException "Timeouted") →
      timeout ≠ 0 ∧ ∃ r, round ≤ r ∧ t0 + timeout ≤ clock r)
    ∧ (∀ (fuel round : Nat) (watched : List Nat) (munches : List (Nat × Build P))
        (failed : List Nat) (m : List (Nat × Build P)) (f : List Nat),
      (processRound get wp round watched munches failed).2 = .ok ([], m, f) →
      (waitAux get wp cb interval timeout t0 clock (fuel + 1) round watched munches
        failed).2 = .finished (dictValues m) f)
    ∧ (∀ (fuel round : Nat) (watched : List Nat) (munches : List (Nat × Build P))
        (failed : List Nat) (w : List Nat) (m : List (Nat × Build P)) (f : List Nat),
      (processRound get wp round watched munches failed).2 = .ok (w, m, f) →
      w ≠ [] → timeout ≠ 0 → t0 + timeout ≤ clock round →
      (waitAux get wp cb interval timeout t0 clock (fuel + 1) round watched munches
        failed).2 = .error (.coprException "Timeouted")
      ∧ (waitAux get wp cb interval timeout t0 clock (fuel + 1) round watched munches
          failed).1
        = (processRound get wp round watched munches failed).1
          ++ (if cb then [Event.callbackCall (dictValues m)] else [])) := by
  refine ⟨?_, ?_, ?_, ?_⟩
  · intro fuel round watched munches failed h0 h
    obtain ⟨hne, _⟩ := waitAux_timeouted_necessary get wp cb interval timeout t0 clock
      fuel round watched munches failed h
    exact hne h0
  · exact waitAux_timeouted_necessary get wp cb interval timeout t0 clock
  · intro fuel round watched munches failed m f hok
    simp [waitAux, hok]
  · intro fuel round watched munches failed w m f hok hne hto hcl
    have hemp : w.isEmpty = false := by
      cases w
      · exact absurd rfl hne
      · rfl
    constructor
    · simp [waitAux, hok, hemp, hto, hcl]
    · simp [waitAux, hok, hemp, hto, hcl]

/-- C4: in a completed round every watched job is fetched exactly once, in
order — the fetched ids of the round's trace are the watched list itself —
and the new watched list is a sublist of the old (the watched set never
grows); moreover a job whose fetch came back terminal leaves the watched
list, is fetched in no later round, and its final snapshot still appears in
a normally returned result. -/
theorem wait_fetch_discipline {P : Type} (get : P → Nat → Nat → Build P)
    (wp : Option P) (cb : Bool) (interval timeout t0 : Nat) (clock : Nat → Nat)
    (round : Nat) (watched : List Nat) (munches : List (Nat × Build P))
    (failed : List Nat) (w' : List Nat) (m' : List (Nat × Build P)) (f' : List Nat)
    (hnd : watched.Nodup)
    (hok : (processRound get wp round watched munches failed).2 = .ok (w', m', f')) :
    fetchedIds (processRound get wp round watched munches failed).1 = watched
    ∧ w'.Sublist watched
    ∧ ∀ i, i ∈ watched →
        (∀ p : P, isTerminal (get p round i).state = true) →
        i ∉ w'
        ∧ (∀ fuel, ∀ e ∈ (waitAux get wp cb interval timeout t0 clock fuel (round + 1)
              w' m' f').1, ∀ (q : P) (r2 : Nat), e ≠ Event.fetch q r2 i)
        ∧ (∀ fuel res fl,
            (waitAux get wp cb interval timeout t0 clock fuel (round + 1) w' m' f').2
              = .finished res fl →
            ∃ b, lookupA m' i = some b ∧ b ∈ res ∧ isTerminal b.state = true) := by
  obtain ⟨mA, mB, mC, mH, mF, mE, mD⟩ :=
    processRound_ok_spec get wp round watched munches failed w' m' f' hnd hok
  refine ⟨mF, mA, ?_⟩
  intro i hi hterm
  obtain ⟨b0, p, hd1, hd2, hd3, hd4, hd5, hd6⟩ := mD i hi
  have hiw : i ∉ w' := by
    intro hmem
    have := hd4.mp hmem
    rw [hterm p] at this
    simp at this
  refine ⟨hiw, ?_, ?_⟩
  · intro fuel e he q r2 hei
    subst hei
    exact hiw (waitAux_fetch_mem get wp cb interval timeout t0 clock fuel (round + 1)
      w' m' f' _ he q r2 i rfl)
  · intro fuel res fl hfin
    exact ⟨get p round i, hd3,
      waitAux_finished_preserves get wp cb interval timeout t0 clock fuel (round + 1)
        w' m' f' res fl hfin i _ hiw hd3, hterm p⟩

/-- C5: with a callback supplied, any `wait` call that returns normally or
times out produces a trace made of poll rounds: the round's fetches, then
exactly one callback invocation whose argument has one snapshot per tracked
job, then — except after the final round — exactly one sleep; so the
callback fires once per round, after all of that round's fetches and before
the inter-round sleep, with the full snapshot list. -/
theorem wait_callback_per_round {P : Type} (get : P → Nat → Nat → Build P)
    (waitable : Waitable P) (interval timeout t0 : Nat) (clock : Nat → Nat)
    (fuel : Nat)
    (h : (wait get waitable true interval timeout t0 clock fuel).2
        = .error (.coprException "Timeouted")
      ∨ ∃ res fl, (wait get waitable true interval timeout t0 clock fuel).2
        = .finished res fl) :
    traceShape (initMunches (buildsOf waitable)).length
      (wait get waitable true interval timeout t0 clock fuel).1 = true := by
  simp only [wait] at h ⊢
  exact waitAux_traceShape get (waitableProxy waitable) interval timeout t0 clock fuel 0
    ((initMunches (buildsOf waitable)).map (·.1)) (initMunches (buildsOf waitable)) [] h

/-- C6 counterexample: a tracked job fetched in the failure-terminal status
"canceled" ends the wait with an empty failed list — "canceled" is never
recorded there, only "failed" would be. -/
theorem wait_canceled_not_failed_counterexample :
    (wait (fun _ _ _ => (⟨7, "canceled", some 0⟩ : Build Nat))
        (.listOf [⟨7, "running", some 0⟩] (some 0)) false 1 0 0 (fun _ => 0) 3).2
      = .finished [⟨7, "canceled", some 0⟩] []
    ∧ isTerminal "canceled" = true
    ∧ "canceled" ≠ "failed" := by
  refine ⟨rfl, rfl, by decide⟩

/-- C6 amended: a completed round extends the failed list exactly with the
identifiers whose fetch returned the status "failed"; any other status —
"canceled" included — leaves the job's membership in the failed list
unchanged, although a terminal status still removes the job from the
watched set. -/
theorem wait_failed_list_exact {P : Type} (get : P → Nat → Nat → Build P)
    (wp : Option P) (round : Nat) (watched : List Nat)
    (munches : List (Nat × Build P)) (failed : List Nat)
    (w' : List Nat) (m' : List (Nat × Build P)) (f' : List Nat)
    (hnd : watched.Nodup)
    (hok : (processRound get wp round watched munches failed).2 = .ok (w', m', f'))
    (i : Nat) :
    (i ∉ watched → (i ∈ f' ↔ i ∈ failed))
    ∧ (i ∈ watched → ∃ b0 p, lookupA munches i = some b0 ∧ resolveProxy b0 wp = some p
        ∧ (i ∈ f' ↔ i ∈ failed ∨ (get p round i).state = "failed")
        ∧ (isTerminal (get p round i).state = true → i ∉ w')) := by
  obtain ⟨mA, mB, mC, mH, mF, mE, mD⟩ :=
    processRound_ok_spec get wp round watched munches failed w' m' f' hnd hok
  refine ⟨mH i, ?_⟩
  intro hi
  obtain ⟨b0, p, hd1, hd2, hd3, hd4, hd5, hd6⟩ := mD i hi
  refine ⟨b0, p, hd1, hd2, hd6, ?_⟩
  intro hter hmem
  have := hd4.mp hmem
  rw [hter] at this
  simp at this

/-- C7: in every round each watched job is refreshed through the proxy
carried by that job's own latest snapshot when the snapshot has one, and
through the original waitable's proxy only when it has none: the fetch path
is resolved per job. -/
theorem wait_per_job_fetch_path {P : Type} (get : P → Nat → Nat → Build P)
    (wp : Option P) (round : Nat) (watched : List Nat)
    (munches : List (Nat × Build P)) (failed : List Nat)
    (w' : List Nat) (m' : List (Nat × Build P)) (f' : List Nat)
    (hnd : watched.Nodup)
    (hok : (processRound get wp round watched munches failed).2 = .ok (w', m', f'))
    (i : Nat) (hi : i ∈ watched) :
    ∃ b0 p, lookupA munches i = some b0
      ∧ Event.fetch p round i ∈ (processRound get wp round watched munches failed).1
      ∧ lookupA m' i = some (get p round i)
      ∧ (∀ q, b0.proxy = some q → p = q)
      ∧ (b0.proxy = none → wp = some p) := by
  obtain ⟨mA, mB, mC, mH, mF, mE, mD⟩ :=
    processRound_ok_spec get wp round watched munches failed w' m' f' hnd hok
  obtain ⟨b0, p, hd1, hd2, hd3, hd4, hd5, hd6⟩ := mD i hi
  refine ⟨b0, p, hd1, hd5, hd3, ?_, ?_⟩
  · intro q hq
    rw [resolveProxy, hq] at hd2
    cases hd2
    rfl
  · intro hq
    rw [resolveProxy, hq] at hd2
    exact hd2

/-- C8 counterexample: a wait aborted by an "unknown" status and a wait
aborted by an expired timeout raise errors of the same exception class,
`CoprException`; only the message text differs, so the two failure outcomes
are not two distinct exception kinds. -/
theorem wait_same_error_class_counterexample :
    (wait (fun _ _ _ => (⟨1, "unknown", some 0⟩ : Build Nat))
        (.listOf [⟨1, "running", some 0⟩] (some 0)) false 1 0 0 (fun _ => 0) 3).2
      = .error (.coprException "Unknown status.")
    ∧ (wait (fun _ _ _ => (⟨1, "running", some 0⟩ : Build Nat))
        (.listOf [⟨1, "running", some 0⟩] (some 0)) false 1 5 0 (fun r => r + 10) 3).2
      = .error (.coprException "Timeouted")
    ∧ errClass (.coprException "Unknown status.") = errClass (.coprException "Timeouted")
    ∧ (PyError.coprException "Unknown status." ≠ PyError.coprException "Timeouted") := by
  refine ⟨rfl, rfl, rfl, by decide⟩

/-- C8 amended: every error a `wait` session can raise is one of
`CoprException "Unknown status."`, `CoprException "Timeouted"`,
`AttributeError` or `KeyError`; the two `wait`-level failure outcomes share
the single exception class `CoprException` and are distinguishable only by
their (distinct) messages. -/
theorem wait_error_taxonomy {P : Type} (get : P → Nat → Nat → Build P)
    (wp : Option P) (cb : Bool) (interval timeout t0 : Nat) (clock : Nat → Nat) :
    (∀ (fuel round : Nat) (watched : List Nat) (munches : List (Nat × Build P))
        (failed : List Nat) (e : PyError),
      (waitAux get wp cb interval timeout t0 clock fuel round watched munches failed).2
        = .error e →
      e = .coprException "Unknown status." ∨ e = .coprException "Timeouted"
        ∨ e = .attributeError ∨ e = .keyError)
    ∧ errClass (.coprException "Unknown status.") = errClass (.coprException "Timeouted")
    ∧ (PyError.coprException "Unknown status." ≠ PyError.coprException "Timeouted") := by
  refine ⟨waitAux_error_cases get wp cb interval timeout t0 clock, rfl, by decide⟩

/-- C9 counterexample: a job that carries a proxy, refreshed by a capability
whose snapshots carry none, makes `wait` on the single job succeed via the
fallback to the job's own proxy, while `wait` on the bare one-element list
hits the missing `__proxy__` of the list and raises `AttributeError`: the
two calls do not behave identically. -/
theorem wait_single_vs_list_counterexample :
    (wait (fun _ k _ => (⟨1, if k = 0 then "running" else "succeeded", none⟩ : Build Nat))
        (.single ⟨1, "running", some 0⟩) false 1 0 0 (fun _ => 0) 3).2
      = .finished [⟨1, "succeeded", none⟩] []
    ∧ (wait (fun _ k _ => (⟨1, if k = 0 then "running" else "succeeded", none⟩ : Build Nat))
        (.listOf [⟨1, "running", some 0⟩] none) false 1 0 0 (fun _ => 0) 3).2
      = .error .attributeError := by
  exact ⟨rfl, rfl⟩

/-- C9 amended: `wait` on a single job and `wait` on the bare one-element
list of it coincide — same trace, same outcome — whenever the job itself
carries no proxy, or every snapshot the capability returns carries its own
proxy (so the waitable-level fallback is never consulted); they can differ
only when the job has a proxy and some fetched snapshot has none. -/
theorem wait_single_eq_list {P : Type} (get : P → Nat → Nat → Build P) (j : Build P)
    (cb : Bool) (interval timeout t0 : Nat) (clock : Nat → Nat) (fuel : Nat)
    (h : j.proxy = none ∨ ∀ (p : P) (k i : Nat), ((get p k i).proxy).isSome) :
    wait get (.single j) cb interval timeout t0 clock fuel
      = wait get (.listOf [j] none) cb interval timeout t0 clock fuel := by
  cases hj : j.proxy with
  | none =>
    simp [wait, buildsOf, waitableProxy, hj]
  | some p0 =>
    rcases h with h | h
    · rw [hj] at h
      cases h
    · have hall : ∀ i b, lookupA (initMunches [j]) i = some b → b.proxy.isSome := by
        intro i b hb
        have hbj : b = j := by
          by_cases hij : j.id = i
          · simpa [initMunches, updateA, lookupA, hij] using hb.symm
          · simp [initMunches, updateA, lookupA, hij] at hb
        rw [hbj, hj]
        rfl
      have := waitAux_wp_congr get (some p0) none cb interval timeout t0 clock h
        fuel 0 ((initMunches [j]).map (·.1)) (initMunches [j]) [] hall
      simpa [wait, buildsOf, waitableProxy, hj] using this

/-- C1 counterexample: the same job listed twice collapses into a single
tracked entry, so the returned list holds one snapshot for two input
elements — with duplicated identifiers the result is not one snapshot per
input job. -/
theorem wait_duplicate_ids_counterexample :
    (wait (fun p _ i => (⟨i, "succeeded", some p⟩ : Build Nat))
        (.listOf [⟨7, "running", some 0⟩, ⟨7, "running", some 0⟩] none) false 1 0 0
        (fun _ => 0) 2).2
      = .finished [⟨7, "succeeded", some 0⟩] []
    ∧ (buildsOf (Waitable.listOf [(⟨7, "running", some 0⟩ : Build Nat),
        ⟨7, "running", some 0⟩] none)).length = 2
    ∧ ([(⟨7, "succeeded", some 0⟩ : Build Nat)].map Build.id
        ≠ (buildsOf (Waitable.listOf [(⟨7, "running", some 0⟩ : Build Nat),
            ⟨7, "running", some 0⟩] none)).map Build.id) := by
  refine ⟨rfl, rfl, by decide⟩

/-- C1 amended: for a non-empty job list with pairwise-distinct identifiers,
every job carrying a fetch proxy, if the capability never reports "unknown",
returns snapshots that keep the job's id and proxy, and reports every job
terminal at some round below `N`, then `wait` with the default zero timeout
and at least `N` rounds of fuel returns exactly once, with exactly one
terminal snapshot per input job, ids in input order. -/
theorem wait_returns_all_terminal {P : Type} (get : P → Nat → Nat → Build P)
    (builds : List (Build P)) (lp : Option P) (cb : Bool)
    (interval t0 : Nat) (clock : Nat → Nat) (N fuel : Nat)
    (hne : builds ≠ [])
    (hnd : (builds.map Build.id).Nodup)
    (hbp : ∀ b ∈ builds, (b.proxy).isSome)
    (hpx : ∀ (p : P) (k i : Nat), ((get p k i).proxy).isSome)
    (hid : ∀ (p : P) (k i : Nat), (get p k i).id = i)
    (hnu : ∀ (p : P) (k i : Nat), (get p k i).state ≠ "unknown")
    (hterm : ∀ i ∈ builds.map Build.id, ∃ k, k < N ∧
      ∀ p : P, isTerminal (get p k i).state = true)
    (hfuel : N ≤ fuel) :
    ∃ res fl,
      (wait get (.listOf builds lp) cb interval 0 t0 clock fuel).2 = .finished res fl
      ∧ res.map Build.id = builds.map Build.id
      ∧ ∀ b ∈ res, isTerminal b.state = true := by
  have hkeys : (initMunches builds).map Prod.fst = builds.map Build.id :=
    initMunches_keys builds hnd
  have hmain := waitAux_all_terminal get lp cb interval t0 clock N hpx hid hnu
    fuel 0 ((initMunches builds).map (·.1)) (initMunches builds) []
    (by
      rw [show ((initMunches builds).map (·.1)) = (initMunches builds).map Prod.fst
            from rfl, hkeys]
      intro hmap
      exact hne (List.map_eq_nil_iff.mp hmap))
    (by
      rw [show ((initMunches builds).map (·.1)) = (initMunches builds).map Prod.fst
            from rfl, hkeys]
      exact hnd)
    (by rw [hkeys]; exact hnd)
    (by
      intro i hi
      have hi2 : i ∈ (initMunches builds).map Prod.fst := hi
      obtain ⟨b, hb⟩ := Option.isSome_iff_exists.mp ((lookupA_isSome _ _).mpr hi2)
      refine ⟨b, hb, ?_⟩
      obtain ⟨hbmem, _⟩ := initMunches_entries builds i b (lookupA_mem _ _ _ hb)
      exact resolveProxy_isSome_of_proxy _ _ (hbp b hbmem))
    (by
      intro i b hb
      obtain ⟨_, hbid⟩ := initMunches_entries builds i b (lookupA_mem _ _ _ hb)
      exact hbid.symm)
    (by
      intro i b hi hb
      exact absurd ((lookupA_isSome _ _).mp (by simp [hb])) hi)
    (by
      intro i hi
      have hi2 : i ∈ builds.map Build.id := by
        rw [show ((initMunches builds).map (·.1)) = (initMunches builds).map Prod.fst
              from rfl, hkeys] at hi
        exact hi
      obtain ⟨k, hk1, hk2⟩ := hterm i hi2
      exact ⟨k, Nat.zero_le _, hk1, hk2⟩)
    (by omega)
  obtain ⟨res, fl, hfin, hmap, hter⟩ := hmain
  refine ⟨res, fl, ?_, ?_, hter⟩
  · simpa [wait, buildsOf] using hfin
  · rw [hmap, hkeys]

/-! ### Witnesses -/

theorem wait_unknown_immediate_witness :
    (waitAux (fun _ _ i => if i = 2 then (⟨2, "unknown", some 0⟩ : Build Nat)
        else ⟨i, "running", some 0⟩) (some 5) true 1 0 0 (fun _ => 0) 2 0
        ([1] ++ 2 :: [3])
        [(1, ⟨1, "running", some 0⟩), (2, ⟨2, "running", some 0⟩),
          (3, ⟨3, "running", some 0⟩)] []).2
      = .error (.coprException "Unknown status.") :=
  (wait_unknown_immediate (fun _ _ i => if i = 2 then (⟨2, "unknown", some 0⟩ : Build Nat)
      else ⟨i, "running", some 0⟩) (some 5) true 1 0 0 (fun _ => 0) 1 0 [1] [3] 2
      [(1, ⟨1, "running", some 0⟩), (2, ⟨2, "running", some 0⟩),
        (3, ⟨3, "running", some 0⟩)] []
      rfl (fun p => rfl)
      (by
        intro p i hi
        simp at hi
        subst hi
        show ¬ ("running" : String) = "unknown"
        decide)
      (by intro i hi; simp at hi; rcases hi with h | h <;> subst h <;> rfl)).1

theorem wait_timeout_characterization_witness :
    (waitAux (fun _ _ i => (⟨i, "running", some 0⟩ : Build Nat)) (some 0) false 1 5 0
        (fun _ => 10) 1 0 [5] [(5, ⟨5, "running", some 0⟩)] []).2
      = .error (.coprException "Timeouted") :=
  ((wait_timeout_characterization (fun _ _ i => (⟨i, "running", some 0⟩ : Build Nat))
      (some 0) false 1 5 0 (fun _ => 10)).2.2.2 0 0 [5] [(5, ⟨5, "running", some 0⟩)] []
      [5] [(5, ⟨5, "running", some 0⟩)] [] rfl (by decide) (by decide) (by decide)).1

theorem wait_fetch_discipline_witness :
    fetchedIds (processRound (fun p _ i => (⟨i, "succeeded", some p⟩ : Build Nat))
        (some 0) 0 [4] [(4, ⟨4, "running", some 0⟩)] []).1 = [4] :=
  (wait_fetch_discipline (fun p _ i => (⟨i, "succeeded", some p⟩ : Build Nat)) (some 0)
      false 1 0 0 (fun _ => 0) 0 [4] [(4, ⟨4, "running", some 0⟩)] [] []
      [(4, ⟨4, "succeeded", some 0⟩)] [] (by decide) rfl).1

theorem wait_callback_per_round_witness :
    traceShape (initMunches (buildsOf (Waitable.listOf
        [(⟨4, "running", some 0⟩ : Build Nat)] none))).length
      (wait (fun p _ i => (⟨i, "succeeded", some p⟩ : Build Nat))
        (.listOf [⟨4, "running", some 0⟩] none) true 1 0 0 (fun _ => 0) 2).1 = true :=
  wait_callback_per_round (fun p _ i => (⟨i, "succeeded", some p⟩ : Build Nat))
    (.listOf [⟨4, "running", some 0⟩] none) 1 0 0 (fun _ => 0) 2
    (Or.inr ⟨[⟨4, "succeeded", some 0⟩], [], rfl⟩)

theorem wait_failed_list_exact_witness :
    ∃ b0 p, lookupA [((4 : Nat), (⟨4, "running", some 0⟩ : Build Nat))] 4 = some b0
      ∧ resolveProxy b0 (some 0) = some p
      ∧ ((4 : Nat) ∈ ([4] : List Nat) ↔ (4 : Nat) ∈ ([] : List Nat) ∨
          ((fun (p : Nat) (_ i : Nat) => (⟨i, "failed", some p⟩ : Build Nat))
            p 0 4).state = "failed")
      ∧ (isTerminal ((fun (p : Nat) (_ i : Nat) => (⟨i, "failed", some p⟩ : Build Nat))
            p 0 4).state = true → (4 : Nat) ∉ ([] : List Nat)) :=
  (wait_failed_list_exact (fun p _ i => (⟨i, "failed", some p⟩ : Build Nat)) (some 0) 0
      [4] [(4, ⟨4, "running", some 0⟩)] [] [] [(4, ⟨4, "failed", some 0⟩)] [4]
      (by decide) rfl 4).2 (by decide)

theorem wait_per_job_fetch_path_witness :
    ∃ b0 p, lookupA [((4 : Nat), (⟨4, "running", some 7⟩ : Build Nat))] 4 = some b0
      ∧ Event.fetch p 0 4 ∈ (processRound
          (fun (p2 : Nat) (_ i : Nat) => (⟨i, "succeeded", some p2⟩ : Build Nat))
          (some 0) 0 [4] [(4, ⟨4, "running", some 7⟩)] []).1
      ∧ lookupA [((4 : Nat), (⟨4, "succeeded", some 7⟩ : Build Nat))] 4
          = some ((fun (p2 : Nat) (_ i : Nat) => (⟨i, "succeeded", some p2⟩ : Build Nat))
              p 0 4)
      ∧ (∀ q, b0.proxy = some q → p = q)
      ∧ (b0.proxy = none → (some 0 : Option Nat) = some p) :=
  wait_per_job_fetch_path
    (fun (p2 : Nat) (_ i : Nat) => (⟨i, "succeeded", some p2⟩ : Build Nat)) (some 0) 0
    [4] [(4, ⟨4, "running", some 7⟩)] [] [] [(4, ⟨4, "succeeded", some 7⟩)] []
    (by decide) rfl 4 (by decide)

theorem wait_error_taxonomy_witness :
    PyError.coprException "Unknown status." = .coprException "Unknown status."
      ∨ PyError.coprException "Unknown status." = .coprException "Timeouted"
      ∨ PyError.coprException "Unknown status." = .attributeError
      ∨ PyError.coprException "Unknown status." = .keyError :=
  (wait_error_taxonomy (fun _ _ i => (⟨i, "unknown", some 0⟩ : Build Nat)) (some 0)
      false 1 0 0 (fun _ => 0)).1 1 0 [1] [(1, ⟨1, "running", some 0⟩)] []
    (.coprException "Unknown status.") rfl

theorem wait_single_eq_list_witness :
    wait (fun _ _ i => (⟨i, "succeeded", none⟩ : Build Nat))
        (.single ⟨1, "running", none⟩) false 1 0 0 (fun _ => 0) 2
      = wait (fun _ _ i => (⟨i, "succeeded", none⟩ : Build Nat))
        (.listOf [⟨1, "running", none⟩] none) false 1 0 0 (fun _ => 0) 2 :=
  wait_single_eq_list (fun _ _ i => (⟨i, "succeeded", none⟩ : Build Nat))
    ⟨1, "running", none⟩ false 1 0 0 (fun _ => 0) 2 (Or.inl rfl)

theorem wait_returns_all_terminal_witness :
    ∃ res fl,
      (wait (fun p _ i => (⟨i, "succeeded", some p⟩ : Build Nat))
          (.listOf [⟨1, "running", some 0⟩, ⟨2, "running", some 0⟩] none) false 1 0 0
          (fun _ => 0) 1).2 = .finished res fl
      ∧ res.map Build.id
          = [(⟨1, "running", some 0⟩ : Build Nat), ⟨2, "running", some 0⟩].map Build.id
      ∧ ∀ b ∈ res, isTerminal b.state = true :=
  wait_returns_all_terminal (fun p _ i => (⟨i, "succeeded", some p⟩ : Build Nat))
    [⟨1, "running", some 0⟩, ⟨2, "running", some 0⟩] none false 1 0 (fun _ => 0) 1 1
    (by decide) (by decide) (by decide) (fun _ _ _ => rfl) (fun _ _ _ => rfl)
    (fun _ _ _ => by
      show ¬ ("succeeded" : String) = "unknown"
      decide)
    (by
      intro i hi
      exact ⟨0, by decide, fun p => by
        show isTerminal "succeeded" = true
        decide⟩)
    (by decide)

end Copr
